import Mathlib

/-!
Verification of `make_neg_sets.py` (negative-example generation for
miRNA-target chimeric datasets).

The embedding mirrors the source script:
* a `Row` is one data row of the tab-separated table;
* `yield_mirnafam_blocks` is the family-block segmenter;
* `process_block` builds the candidate pool, samples the negatives and
  returns the rows it appends to the output;
* `runMain` is the orchestrator loop of `main`.

Randomness of `pandas.DataFrame.sample` is modelled by oracle parameters
`shuffle` (for `sample(frac=1, random_state=seed)`) and `sample`
(for `sample(n=k, random_state=seed)`), constrained in theorems to be a
permutation, resp. a without-replacement draw (`Subperm`), of their input.
`hashlib.sha256` is embedded as a full SHA-256 implementation over `Nat`.
-/

/-- One row of the input/output table.  Field `end_` stands for the source
column `end` (a reserved word in Lean). -/
structure Row where
  gene : String
  feature : String
  test : String
  chr : String
  start : String
  end_ : String
  strand : String
  gene_cluster_ID : String
  noncodingRNA : String
  noncodingRNA_name : String
  noncodingRNA_fam : String
  label : String
deriving DecidableEq, Repr, Inhabited

/-! ### SHA-256 over `Nat` (embedding of `hashlib.sha256`) -/

/-- The word modulus of SHA-256, 2^32. -/
def w32 : Nat := 4294967296

/-- Right rotation of a 32-bit word. -/
def rotr (n x : Nat) : Nat := ((x >>> n) ||| (x <<< (32 - n))) % w32

/-- Big sigma-0 of SHA-256. -/
def bsig0 (x : Nat) : Nat := rotr 2 x ^^^ rotr 13 x ^^^ rotr 22 x

/-- Big sigma-1 of SHA-256. -/
def bsig1 (x : Nat) : Nat := rotr 6 x ^^^ rotr 11 x ^^^ rotr 25 x

/-- Small sigma-0 of SHA-256. -/
def ssig0 (x : Nat) : Nat := rotr 7 x ^^^ rotr 18 x ^^^ (x >>> 3)

/-- Small sigma-1 of SHA-256. -/
def ssig1 (x : Nat) : Nat := rotr 17 x ^^^ rotr 19 x ^^^ (x >>> 10)

/-- The 64 SHA-256 round constants of FIPS 180-4, written in decimal. -/
def kConsts : List Nat :=
  [1116352408, 1899447441, 3049323471, 3921009573, 961987163,
   1508970993, 2453635748, 2870763221, 3624381080, 310598401,
   607225278, 1426881987, 1925078388, 2162078206, 2614888103,
   3248222580, 3835390401, 4022224774, 264347078, 604807628,
   770255983, 1249150122, 1555081692, 1996064986, 2554220882,
   2821834349, 2952996808, 3210313671, 3336571891, 3584528711,
   113926993, 338241895, 666307205, 773529912, 1294757372,
   1396182291, 1695183700, 1986661051, 2177026350, 2456956037,
   2730485921, 2820302411, 3259730800, 3345764771, 3516065817,
   3600352804, 4094571909, 275423344, 430227734, 506948616,
   659060556, 883997877, 958139571, 1322822218, 1537002063,
   1747873779, 1955562222, 2024104815, 2227730452, 2361852424,
   2428436474, 2756734187, 3204031479, 3329325298]

/-- The initial SHA-256 hash state of FIPS 180-4, written in decimal. -/
def hInit : List Nat :=
  [1779033703, 3144134277, 1013904242, 2773480762,
   1359893119, 2600822924, 528734635, 1541459225]

/-- SHA-256 padding: append `0x80`, zero bytes, and the 8-byte big-endian bit length. -/
def padBytes (msg : List Nat) : List Nat :=
  let L := msg.length
  let k := (120 - (L + 1) % 64) % 64
  let lenBytes := (List.range 8).map (fun i => ((8 * L) >>> (56 - 8 * i)) % 256)
  msg ++ 0x80 :: List.replicate k 0 ++ lenBytes

/-- Group a byte list into 64-byte chunks; the fuel argument (instantiated
with the list length, which bounds the number of chunks) makes the recursion
structural. -/
def chunksAux : Nat → List Nat → List (List Nat)
  | 0, _ => []
  | _, [] => []
  | fuel + 1, b :: l => ((b :: l).take 64) :: chunksAux fuel ((b :: l).drop 64)

/-- Group a byte list into 64-byte chunks. -/
def chunks64 (l : List Nat) : List (List Nat) := chunksAux l.length l

/-- Read a byte list as big-endian 32-bit words. -/
def toWords : List Nat → List Nat
  | b0 :: b1 :: b2 :: b3 :: rest => (((b0 * 256 + b1) * 256 + b2) * 256 + b3) :: toWords rest
  | _ => []

/-- Extend the 16-word message schedule by `k` further words. -/
def extendW (ws : List Nat) : Nat → List Nat
  | 0 => ws
  | k + 1 =>
    let ws2 := extendW ws k
    let i := ws2.length
    ws2 ++ [(ssig1 (ws2.getD (i - 2) 0) + ws2.getD (i - 7) 0 +
             ssig0 (ws2.getD (i - 15) 0) + ws2.getD (i - 16) 0) % w32]

/-- One SHA-256 compression round on an 8-word state. -/
def roundFn (st : List Nat) (kw : Nat × Nat) : List Nat :=
  match st with
  | [a, b, c, d, e, f, g, h] =>
    let ch := (e &&& f) ^^^ ((e ^^^ (w32 - 1)) &&& g)
    let maj := (a &&& b) ^^^ (a &&& c) ^^^ (b &&& c)
    let t1 := (h + bsig1 e + ch + kw.1 + kw.2) % w32
    let t2 := (bsig0 a + maj) % w32
    [(t1 + t2) % w32, a, b, c, (d + t1) % w32, e, f, g]
  | st2 => st2

/-- Compress one 64-byte chunk into the running hash state. -/
def compressChunk (hs : List Nat) (chunk : List Nat) : List Nat :=
  let ws := extendW (toWords chunk) 48
  let st := (kConsts.zip ws).foldl roundFn hs
  (hs.zip st).map (fun p => (p.1 + p.2) % w32)

/-- The eight 32-bit hash words of a byte message. -/
def sha256Words (msg : List Nat) : List Nat :=
  (chunks64 (padBytes msg)).foldl compressChunk hInit

/-- Big-endian bytes of one 32-bit word. -/
def wordToBytes (w : Nat) : List Nat :=
  [w / 16777216 % 256, w / 65536 % 256, w / 256 % 256, w % 256]

/-- The 32-byte SHA-256 digest of a byte message. -/
def sha256Bytes (msg : List Nat) : List Nat :=
  (sha256Words msg).flatMap wordToBytes

/-- Lowercase hex digit character for a value below 16. -/
def hexDigitChar (n : Nat) : Char :=
  Char.ofNat (if n < 10 then 48 + n else 87 + n)

/-- Two lowercase hex characters of one byte. -/
def byteHexChars (b : Nat) : List Char :=
  [hexDigitChar (b / 16), hexDigitChar (b % 16)]

/-- The `hexdigest()` string of SHA-256: 64 lowercase hex characters. -/
def sha256hex (msg : List Nat) : String :=
  String.mk ((sha256Bytes msg).flatMap byteHexChars)

/-- Numeric value of a lowercase hex character, as `int(s, 16)` reads it. -/
def hexVal (c : Char) : Nat :=
  if c.toNat ≤ 57 then c.toNat - 48 else c.toNat - 87

/-- Embedding of Python `int(s, 16)` on lowercase hex strings. -/
def parseHex (s : String) : Nat :=
  s.data.foldl (fun a c => 16 * a + hexVal c) 0

/-- Big-endian integer value of a byte list (the digest "interpreted as an
unsigned integer"). -/
def bytesToNatBE (bs : List Nat) : Nat :=
  bs.foldl (fun a b => 256 * a + b) 0

/-- UTF-8 encoding of one character (embedding of Python `str.encode()`). -/
def utf8Char (c : Char) : List Nat :=
  let n := c.toNat
  if n < 128 then [n]
  else if n < 2048 then [192 + n / 64, 128 + n % 64]
  else if n < 65536 then [224 + n / 4096, 128 + n / 64 % 64, 128 + n % 64]
  else [240 + n / 262144, 128 + n / 4096 % 64, 128 + n / 64 % 64, 128 + n % 64]

/-- UTF-8 bytes of a string. -/
def strBytes (s : String) : List Nat := s.data.flatMap utf8Char

/-! ### List helpers mirroring pandas `unique` / `drop_duplicates(keep='first')` -/

/-- First-occurrence deduplication with an accumulator of already-seen values
(embedding of `pandas.Series.unique().tolist()`, which keeps first
occurrences in order). -/
def uniqueAux : List String → List String → List String
  | [], _ => []
  | a :: l, seen => if a ∈ seen then uniqueAux l seen else a :: uniqueAux l (a :: seen)

/-- Embedding of `pandas.Series.unique().tolist()`: distinct values in first-occurrence order. -/
def uniqueList (l : List String) : List String := uniqueAux l []

/-- First-occurrence deduplication of rows by a key
(embedding of `DataFrame.drop_duplicates(subset=[k], keep='first')`). -/
def dedupByAux (key : Row → String) : List Row → List String → List Row
  | [], _ => []
  | r :: l, seen =>
    if key r ∈ seen then dedupByAux key l seen else r :: dedupByAux key l (key r :: seen)

/-- Embedding of `drop_duplicates` on `gene_cluster_ID` with keep-first on a row list. -/
def drop_duplicates_by (key : Row → String) (l : List Row) : List Row := dedupByAux key l []

/-! ### The family-block segmenter (`yield_mirnafam_blocks`) -/

/-- The loop body of `yield_mirnafam_blocks`: `current_block` is the block
under construction, `current_mirnafam` the family key it was opened with
(`none` before the first row, as Python's `None`). -/
def blocksLoop : List Row → List Row → Option String → List (List Row)
  | [], current_block, _ =>
    if current_block.isEmpty then [] else [current_block]
  | r :: rest, current_block, current_mirnafam =>
    if some r.noncodingRNA_fam ≠ current_mirnafam then
      (if current_block.isEmpty then [] else [current_block]) ++
        blocksLoop rest [r] (some r.noncodingRNA_fam)
    else
      blocksLoop rest (current_block ++ [r]) current_mirnafam

/-- Embedding of `yield_mirnafam_blocks`: split the data rows into contiguous
runs sharing the `noncodingRNA_fam` value. -/
def yield_mirnafam_blocks (rows : List Row) : List (List Row) :=
  blocksLoop rows [] none

/-! ### `process_block` -/

/-- The first row of a block, as `.iloc[0]` reads it (default row when empty,
where the script would raise `IndexError`). -/
def firstRow (block : List Row) : Row := block.headD default

/-- The representative identifier of a block: the first `noncodingRNA_name` value. -/
def miRNA_name (block : List Row) : String := (firstRow block).noncodingRNA_name

/-- Embedding of `hashlib.sha256(miRNA_name.encode()).hexdigest()`. -/
def miRNA_hash_hex (block : List Row) : String := sha256hex (strBytes (miRNA_name block))

/-- Embedding of `int(miRNA_hash_hex, 16)`. -/
def miRNA_hash_int (block : List Row) : Nat := parseHex (miRNA_hash_hex block)

/-- The per-block seed: `miRNA_hash_int % 4294967295`. -/
def blockSeed (block : List Row) : Nat := miRNA_hash_int block % 4294967295

/-- The distinct cluster identifiers of the block, in first-occurrence order. -/
def block_clusters (block : List Row) : List String :=
  uniqueList (block.map (fun r => r.gene_cluster_ID))

/-- The clusters allowed to pair with this block: all clusters not in `block_clusters`. -/
def mirfam_allowed_clusters (all_clusters : List String) (block : List Row) : List String :=
  all_clusters.filter (fun cluster => cluster ∉ block_clusters block)

/-- The pool of gene rows from allowed clusters, filtered from `positive_samples`. -/
def negative_pool0 (positive_samples : List Row) (all_clusters : List String)
    (block : List Row) : List Row :=
  positive_samples.filter (fun r => r.gene_cluster_ID ∈ mirfam_allowed_clusters all_clusters block)

/-- The deduplicated candidate pool:
`negative_pool.sample(frac=1, random_state=seed).drop_duplicates(subset=['gene_cluster_ID'], keep='first')`. -/
def negative_pool (shuffle : Nat → List Row → List Row) (positive_samples : List Row)
    (all_clusters : List String) (block : List Row) : List Row :=
  drop_duplicates_by (fun r => r.gene_cluster_ID)
    (shuffle (blockSeed block) (negative_pool0 positive_samples all_clusters block))

/-- The `ValueError` message raised on an insufficient candidate pool. -/
def errMsg (block : List Row) : String :=
  "Warning: Not enough negative examples for current block. miRNA family: " ++
    (firstRow block).noncodingRNA_fam ++ ", first miRNA sequence: " ++
    (firstRow block).noncodingRNA

/-- The sampled negatives: a block-sized draw from `negative_pool` at the block seed. -/
def negative_genes (shuffle : Nat → List Row → List Row)
    (sample : Nat → Nat → List Row → List Row) (positive_samples : List Row)
    (all_clusters : List String) (block : List Row) : List Row :=
  sample (blockSeed block) block.length
    (negative_pool shuffle positive_samples all_clusters block)

/-- Assembly of one negative record: gene-side fields from the sampled gene
row `g`, RNA-side fields from the positionally paired positive `p`, label 0. -/
def mkNegative (g p : Row) : Row :=
  { gene := g.gene, feature := g.feature, test := g.test, chr := g.chr,
    start := g.start, end_ := g.end_, strand := g.strand,
    gene_cluster_ID := g.gene_cluster_ID,
    noncodingRNA := p.noncodingRNA, noncodingRNA_name := p.noncodingRNA_name,
    noncodingRNA_fam := p.noncodingRNA_fam, label := "0" }

/-- The negative rows of a block (`negatives_df`, already reordered to the
block's columns). -/
def negatives_df (shuffle : Nat → List Row → List Row)
    (sample : Nat → Nat → List Row → List Row) (positive_samples : List Row)
    (all_clusters : List String) (block : List Row) : List Row :=
  List.zipWith mkNegative
    (negative_genes shuffle sample positive_samples all_clusters block) block

/-- Embedding of `process_block`: raises `ValueError` when the block needs
more negatives than the deduplicated pool holds, otherwise returns the rows
appended to the output file — the block's positives followed by its
negatives. -/
def process_block (shuffle : Nat → List Row → List Row)
    (sample : Nat → Nat → List Row → List Row) (block : List Row)
    (positive_samples : List Row) (all_clusters : List String) :
    Except String (List Row × List Row) :=
  if block.length > (negative_pool shuffle positive_samples all_clusters block).length then
    .error (errMsg block)
  else
    .ok (block, negatives_df shuffle sample positive_samples all_clusters block)

/-! ### The orchestrator (`main`) -/

/-- The per-block dispatch of `main`: a block whose first family key is the
sentinel `"unknown"` is split into one sub-block per distinct `noncodingRNA`
value; any other block is processed whole. -/
def expandUnits (block : List Row) : List (List Row) :=
  if (firstRow block).noncodingRNA_fam = "unknown" then
    (uniqueList (block.map (fun r => r.noncodingRNA))).map
      (fun mirna => block.filter (fun r => r.noncodingRNA = mirna))
  else [block]

/-- All units `process_block` is called on, in processing order. -/
def allUnits (rows : List Row) : List (List Row) :=
  (yield_mirnafam_blocks rows).flatMap expandUnits

/-- Run `process_block` over a list of units, accumulating the written data
rows; an error stops the run with nothing further written. -/
def runUnits (shuffle : Nat → List Row → List Row)
    (sample : Nat → Nat → List Row → List Row) (positive_samples : List Row)
    (all_clusters : List String) : List (List Row) → List Row × Option String
  | [] => ([], none)
  | u :: rest =>
    match process_block shuffle sample u positive_samples all_clusters with
    | .error e => ([], some e)
    | .ok (pos, negs) =>
      let t := runUnits shuffle sample positive_samples all_clusters rest
      (pos ++ negs ++ t.1, t.2)

/-- Embedding of `main` on the parsed input rows: the global cluster list is
`positive_samples['gene_cluster_ID'].unique().tolist()`, and every unit is
processed in order.  Returns the written data rows and the error, if any. -/
def runMain (shuffle : Nat → List Row → List Row)
    (sample : Nat → Nat → List Row → List Row) (rows : List Row) :
    List Row × Option String :=
  runUnits shuffle sample rows (uniqueList (rows.map (fun r => r.gene_cluster_ID)))
    (allUnits rows)

/-! ### Serialized output (`to_csv`) -/

/-- Value of a row under a column name, for serialization in header order. -/
def getCol (r : Row) : String → String
  | "gene" => r.gene
  | "feature" => r.feature
  | "test" => r.test
  | "chr" => r.chr
  | "start" => r.start
  | "end" => r.end_
  | "strand" => r.strand
  | "gene_cluster_ID" => r.gene_cluster_ID
  | "noncodingRNA" => r.noncodingRNA
  | "noncodingRNA_name" => r.noncodingRNA_name
  | "noncodingRNA_fam" => r.noncodingRNA_fam
  | "label" => r.label
  | _ => ""

/-- One output line: the row's fields in the input header's column order. -/
def csvRow (header : List String) (r : Row) : List String := header.map (getCol r)

/-- The full output file as lines of fields: the input header written once
first (overwrite mode), then every written data row in header order. -/
def runOutput (shuffle : Nat → List Row → List Row)
    (sample : Nat → Nat → List Row → List Row) (header : List String)
    (rows : List Row) : List (List String) :=
  header :: (runMain shuffle sample rows).1.map (csvRow header)

/-! ### Oracle specifications for the pandas sampling primitives -/

/-- Specification of `DataFrame.sample` with full fraction: it returns a permutation of
its input. -/
def ShuffleSpec (shuffle : Nat → List Row → List Row) : Prop :=
  ∀ s l, (shuffle s l).Perm l

/-- Specification of `DataFrame.sample` with count `k ≤ len`: it draws `k` rows
without replacement: the result has length `k` and is a sub-permutation of
the input. -/
def SampleSpec (sample : Nat → Nat → List Row → List Row) : Prop :=
  ∀ s n l, n ≤ l.length → (sample s n l).length = n ∧ (sample s n l).Subperm l

/-- A concrete shuffle satisfying `ShuffleSpec` (identity permutation). -/
def idShuffle : Nat → List Row → List Row := fun _ l => l

/-- A concrete sampler satisfying `SampleSpec` (first `n` rows). -/
def takeSample : Nat → Nat → List Row → List Row := fun _ n l => l.take n

/-- A concrete row builder for closed instantiations of the theorems. -/
def mkRow (g cl rna nm fam lb : String) : Row :=
  { gene := g, feature := "f", test := "t", chr := "c", start := "1", end_ := "2",
    strand := "+", gene_cluster_ID := cl, noncodingRNA := rna,
    noncodingRNA_name := nm, noncodingRNA_fam := fam, label := lb }

def exR1 : Row := mkRow "g1" "c1" "AAA" "mirA" "famA" "1"

def exR2 : Row := mkRow "g2" "c2" "AAC" "mirA2" "famA" "1"

def exR3 : Row := mkRow "g3" "c3" "CCC" "mirB" "famB" "1"

def exR4 : Row := mkRow "g4" "c4" "GGG" "mirC" "famB" "1"

def exU1 : Row := mkRow "g5" "c5" "UUU" "mirU" "unknown" "1"

def exU2 : Row := mkRow "g6" "c6" "UUA" "mirU2" "unknown" "1"

/-- A concrete input table, sorted by `noncodingRNA_fam`. -/
def exRows : List Row := [exR1, exR2, exR3, exR4, exU1, exU2]

/-- The global cluster list of the concrete input table. -/
def exClusters : List String := uniqueList (exRows.map (fun r => r.gene_cluster_ID))

/-- A shuffle oracle that deviates from `idShuffle` only at seed 12345; used
to witness that the run depends on the oracles only at the derived seeds. -/
def shuffleAlt : Nat → List Row → List Row :=
  fun s l => if s = 12345 then l.reverse else l

/-- The input header of the concrete table, in source column order. -/
def exHeader : List String :=
  ["gene", "feature", "test", "chr", "start", "end", "strand", "gene_cluster_ID",
   "noncodingRNA", "noncodingRNA_name", "noncodingRNA_fam", "label"]

theorem idShuffle_spec : ShuffleSpec idShuffle := fun _ l => List.Perm.refl l

theorem takeSample_spec : SampleSpec takeSample := by
  intro s n l h
  refine ⟨?_, List.Sublist.subperm (List.take_sublist n l)⟩
  simp only [takeSample, List.length_take]
  omega

/-! ### Helper lemmas: deduplication, uniqueness, sub-permutations -/

theorem dedupByAux_sublist (key : Row → String) :
    ∀ (l : List Row) (seen : List String), List.Sublist (dedupByAux key l seen) l := by
  intro l
  induction l with
  | nil => intro seen; simp [dedupByAux]
  | cons r l ih =>
    intro seen
    by_cases h : key r ∈ seen
    · simp only [dedupByAux, if_pos h]
      exact (ih seen).cons r
    · simp only [dedupByAux, if_neg h]
      exact (ih (key r :: seen)).cons₂ r

theorem key_not_seen_of_mem_dedupByAux (key : Row → String) :
    ∀ (l : List Row) (seen : List String) (r : Row),
      r ∈ dedupByAux key l seen → key r ∉ seen := by
  intro l
  induction l with
  | nil => intro seen r h; simp [dedupByAux] at h
  | cons a l ih =>
    intro seen r h
    by_cases ha : key a ∈ seen
    · simp only [dedupByAux, if_pos ha] at h
      exact ih seen r h
    · simp only [dedupByAux, if_neg ha, List.mem_cons] at h
      rcases h with h | h
      · subst h; exact ha
      · intro hseen
        exact ih (key a :: seen) r h (List.mem_cons_of_mem _ hseen)

theorem nodup_keys_dedupByAux (key : Row → String) :
    ∀ (l : List Row) (seen : List String),
      ((dedupByAux key l seen).map key).Nodup := by
  intro l
  induction l with
  | nil => intro seen; simp [dedupByAux]
  | cons a l ih =>
    intro seen
    by_cases ha : key a ∈ seen
    · simp only [dedupByAux, if_pos ha]; exact ih seen
    · simp only [dedupByAux, if_neg ha, List.map_cons, List.nodup_cons]
      refine ⟨?_, ih (key a :: seen)⟩
      intro hmem
      rcases List.mem_map.mp hmem with ⟨r, hr, hkr⟩
      exact key_not_seen_of_mem_dedupByAux key l (key a :: seen) r hr
        (hkr ▸ List.mem_cons_self _ _)

theorem mem_uniqueAux :
    ∀ (l seen : List String) (a : String), a ∈ uniqueAux l seen ↔ a ∈ l ∧ a ∉ seen := by
  intro l
  induction l with
  | nil => intro seen a; simp [uniqueAux]
  | cons b l ih =>
    intro seen a
    by_cases hb : b ∈ seen
    · simp only [uniqueAux, if_pos hb, ih, List.mem_cons]
      by_cases hab : a = b
      · subst hab; simp [hb]
      · simp [hab]
    · simp only [uniqueAux, if_neg hb, List.mem_cons, ih]
      by_cases hab : a = b
      · subst hab; simp [hb]
      · simp [hab]

theorem mem_uniqueList (l : List String) (a : String) : a ∈ uniqueList l ↔ a ∈ l := by
  simp [uniqueList, mem_uniqueAux]

theorem nodup_uniqueAux :
    ∀ (l seen : List String), (uniqueAux l seen).Nodup := by
  intro l
  induction l with
  | nil => intro seen; simp [uniqueAux]
  | cons b l ih =>
    intro seen
    by_cases hb : b ∈ seen
    · simp only [uniqueAux, if_pos hb]; exact ih seen
    · simp only [uniqueAux, if_neg hb, List.nodup_cons]
      refine ⟨?_, ih (b :: seen)⟩
      intro hmem
      exact ((mem_uniqueAux l (b :: seen) b).mp hmem).2 (List.mem_cons_self _ _)

theorem nodup_uniqueList (l : List String) : (uniqueList l).Nodup :=
  nodup_uniqueAux l []

/-- Sub-permutations transfer `Nodup` of a mapped key backwards. -/
theorem nodup_map_of_subperm {l₁ l₂ : List Row} (f : Row → String)
    (h : l₁.Subperm l₂) (hn : (l₂.map f).Nodup) : (l₁.map f).Nodup := by
  rcases h with ⟨l, hp, hs⟩
  exact ((hp.map f).nodup_iff).mp ((hs.map f).nodup hn)

theorem mem_of_mem_zipWith {f : Row → Row → Row} :
    ∀ (as bs : List Row) (x : Row), x ∈ List.zipWith f as bs →
      ∃ a, a ∈ as ∧ ∃ b, b ∈ bs ∧ x = f a b := by
  intro as
  induction as with
  | nil => intro bs x h; simp at h
  | cons a as ih =>
    intro bs x h
    cases bs with
    | nil => simp at h
    | cons b bs =>
      simp only [List.zipWith_cons_cons, List.mem_cons] at h
      rcases h with h | h
      · exact ⟨a, List.mem_cons_self _ _, b, List.mem_cons_self _ _, h⟩
      · rcases ih bs x h with ⟨a2, ha, b2, hb, hx⟩
        exact ⟨a2, List.mem_cons_of_mem _ ha, b2, List.mem_cons_of_mem _ hb, hx⟩

theorem map_cluster_zipWith_mkNegative :
    ∀ (gs bl : List Row), gs.length = bl.length →
      (List.zipWith mkNegative gs bl).map (fun r => r.gene_cluster_ID) =
        gs.map (fun r => r.gene_cluster_ID) := by
  intro gs
  induction gs with
  | nil => intro bl h; simp
  | cons g gs ih =>
    intro bl h
    cases bl with
    | nil => simp at h
    | cons b bl =>
      simp only [List.zipWith_cons_cons, List.map_cons, List.length_cons,
        List.cons.injEq] at h ⊢
      exact ⟨rfl, ih bl (by omega)⟩

/-! ### Candidate-pool membership facts -/

/-- Every row of the deduplicated candidate pool comes from the filtered
pool and thus avoids the block's clusters. -/
theorem cluster_not_in_block_of_mem_pool
    {shuffle : Nat → List Row → List Row} (hsh : ShuffleSpec shuffle)
    (positive_samples : List Row) (all_clusters : List String) (block : List Row)
    {r : Row} (hr : r ∈ negative_pool shuffle positive_samples all_clusters block) :
    r.gene_cluster_ID ∉ block_clusters block := by
  have h1 : r ∈ shuffle (blockSeed block) (negative_pool0 positive_samples all_clusters block) :=
    (dedupByAux_sublist _ _ _).mem hr
  have h2 : r ∈ negative_pool0 positive_samples all_clusters block :=
    (hsh (blockSeed block) _).mem_iff.mp h1
  have h3 : r.gene_cluster_ID ∈ mirfam_allowed_clusters all_clusters block := by
    simpa [negative_pool0] using (List.mem_filter.mp h2).2
  simpa [mirfam_allowed_clusters] using (List.mem_filter.mp h3).2

/-- Every positive row of a block contributes its cluster to `block_clusters`. -/
theorem cluster_in_block_of_mem_block (block : List Row) {p : Row} (hp : p ∈ block) :
    p.gene_cluster_ID ∈ block_clusters block := by
  exact (mem_uniqueList _ _).mpr (List.mem_map_of_mem _ hp)

/-! ### Hex round trip: `int(hexdigest(), 16)` is the big-endian digest value -/

theorem hexVal_hexDigitChar {n : Nat} (h : n < 16) : hexVal (hexDigitChar n) = n := by
  interval_cases n <;> decide

theorem foldl_hex_flatMap :
    ∀ (bs : List Nat) (a : Nat), (∀ b ∈ bs, b < 256) →
      List.foldl (fun a c => 16 * a + hexVal c) a (bs.flatMap byteHexChars) =
        List.foldl (fun a b => 256 * a + b) a bs := by
  intro bs
  induction bs with
  | nil => intro a _; simp
  | cons b bs ih =>
    intro a hlt
    have hb : b < 256 := hlt b (List.mem_cons_self _ _)
    have hdiv : b / 16 < 16 := by omega
    have hmod : b % 16 < 16 := Nat.mod_lt _ (by norm_num)
    simp only [List.flatMap_cons, List.foldl_append, byteHexChars, List.foldl_cons,
      List.foldl_nil]
    rw [hexVal_hexDigitChar hdiv, hexVal_hexDigitChar hmod,
      ih _ (fun x hx => hlt x (List.mem_cons_of_mem _ hx))]
    congr 1
    omega

theorem sha256Bytes_lt (msg : List Nat) : ∀ b ∈ sha256Bytes msg, b < 256 := by
  intro b hb
  rcases List.mem_flatMap.mp hb with ⟨w, _, hw⟩
  simp only [wordToBytes, List.mem_cons, List.not_mem_nil, or_false] at hw
  rcases hw with h | h | h | h <;>
    (subst h; exact Nat.mod_lt _ (by norm_num))

/-- Parsing the SHA-256 hexdigest as an integer equals the digest bytes read as a
big-endian unsigned integer. -/
theorem parseHex_sha256hex (msg : List Nat) :
    parseHex (sha256hex msg) = bytesToNatBE (sha256Bytes msg) := by
  simp only [parseHex, sha256hex, bytesToNatBE]
  exact foldl_hex_flatMap (sha256Bytes msg) 0 (sha256Bytes_lt msg)

/-! ### Segmenter lemmas -/

theorem firstRow_mem {b : List Row} (hb : b ≠ []) : firstRow b ∈ b := by
  cases b with
  | nil => exact absurd rfl hb
  | cons r l => simp [firstRow]

theorem blocksLoop_join :
    ∀ (rest cur : List Row) (fam : Option String),
      (blocksLoop rest cur fam).flatten = cur ++ rest := by
  intro rest
  induction rest with
  | nil =>
    intro cur fam
    by_cases hc : cur.isEmpty
    · simp [blocksLoop, hc, List.isEmpty_iff.mp hc]
    · simp [blocksLoop, hc]
  | cons r rest ih =>
    intro cur fam
    by_cases h : some r.noncodingRNA_fam ≠ fam
    · by_cases hc : cur.isEmpty
      · simp [blocksLoop, h, hc, ih, List.isEmpty_iff.mp hc]
      · simp [blocksLoop, h, hc, ih]
    · simp [blocksLoop, h, ih]

theorem blocksLoop_ne_nil :
    ∀ (rest cur : List Row) (fam : Option String),
      ∀ b ∈ blocksLoop rest cur fam, b ≠ [] := by
  intro rest
  induction rest with
  | nil =>
    intro cur fam b hb
    by_cases hc : cur.isEmpty
    · simp [blocksLoop, hc] at hb
    · simp only [blocksLoop, if_neg hc, List.mem_singleton] at hb
      subst hb
      simpa [List.isEmpty_iff] using hc
  | cons r rest ih =>
    intro cur fam b hb
    by_cases h : some r.noncodingRNA_fam ≠ fam
    · simp only [blocksLoop, if_pos h, List.mem_append] at hb
      rcases hb with hb | hb
      · by_cases hc : cur.isEmpty
        · simp [hc] at hb
        · simp only [if_neg hc, List.mem_singleton] at hb
          subst hb
          simpa [List.isEmpty_iff] using hc
      · exact ih _ _ b hb
    · simp only [blocksLoop, if_neg h] at hb
      exact ih _ _ b hb

theorem blocksLoop_const_fam :
    ∀ (rest cur : List Row) (fam : Option String),
      (∀ r ∈ cur, some r.noncodingRNA_fam = fam) →
      ∀ b ∈ blocksLoop rest cur fam, ∀ r1 ∈ b, ∀ r2 ∈ b,
        r1.noncodingRNA_fam = r2.noncodingRNA_fam := by
  intro rest
  induction rest with
  | nil =>
    intro cur fam hinv b hb r1 h1 r2 h2
    by_cases hc : cur.isEmpty
    · simp [blocksLoop, hc] at hb
    · simp only [blocksLoop, if_neg hc, List.mem_singleton] at hb
      subst hb
      exact Option.some.inj ((hinv r1 h1).trans (hinv r2 h2).symm)
  | cons r rest ih =>
    intro cur fam hinv b hb r1 h1 r2 h2
    by_cases h : some r.noncodingRNA_fam ≠ fam
    · simp only [blocksLoop, if_pos h, List.mem_append] at hb
      rcases hb with hb | hb
      · by_cases hc : cur.isEmpty
        · simp [hc] at hb
        · simp only [if_neg hc, List.mem_singleton] at hb
          subst hb
          exact Option.some.inj ((hinv r1 h1).trans (hinv r2 h2).symm)
      · exact ih [r] (some r.noncodingRNA_fam) (by simp) b hb r1 h1 r2 h2
    · simp only [blocksLoop, if_neg h] at hb
      refine ih (cur ++ [r]) fam ?_ b hb r1 h1 r2 h2
      intro x hx
      rcases List.mem_append.mp hx with hx | hx
      · exact hinv x hx
      · simp only [List.mem_singleton] at hx
        subst hx
        exact not_not.mp h

theorem blocksLoop_head :
    ∀ (rest cur : List Row) (fam : Option String), cur ≠ [] →
      ∃ b bs, blocksLoop rest cur fam = b :: bs ∧ b.headD default = cur.headD default := by
  intro rest
  induction rest with
  | nil =>
    intro cur fam hc
    refine ⟨cur, [], ?_, rfl⟩
    simp [blocksLoop, List.isEmpty_iff, hc]
  | cons r rest ih =>
    intro cur fam hc
    by_cases h : some r.noncodingRNA_fam ≠ fam
    · refine ⟨cur, blocksLoop rest [r] (some r.noncodingRNA_fam), ?_, rfl⟩
      simp [blocksLoop, h, List.isEmpty_iff, hc]
    · rcases ih (cur ++ [r]) fam (by simp) with ⟨b, bs, heq, hhead⟩
      refine ⟨b, bs, ?_, ?_⟩
      · simpa only [blocksLoop, if_neg h] using heq
      · rw [hhead]
        cases cur with
        | nil => exact absurd rfl hc
        | cons c cs => simp

theorem blocksLoop_chain :
    ∀ (rest cur : List Row) (fam : Option String),
      (∀ r ∈ cur, some r.noncodingRNA_fam = fam) →
      List.Chain' (fun b1 b2 =>
          (b1.headD default).noncodingRNA_fam ≠ (b2.headD default).noncodingRNA_fam)
        (blocksLoop rest cur fam) := by
  intro rest
  induction rest with
  | nil =>
    intro cur fam _
    by_cases hc : cur.isEmpty <;> simp [blocksLoop, hc]
  | cons r rest ih =>
    intro cur fam hinv
    by_cases h : some r.noncodingRNA_fam ≠ fam
    · by_cases hc : cur.isEmpty
      · simpa [blocksLoop, h, hc] using ih [r] (some r.noncodingRNA_fam) (by simp)
      · have hcur : cur ≠ [] := by simpa [List.isEmpty_iff] using hc
        have hch := ih [r] (some r.noncodingRNA_fam) (by simp)
        rcases blocksLoop_head rest [r] (some r.noncodingRNA_fam) (by simp) with
          ⟨b, bs, heq, hhead⟩
        have hiff : blocksLoop (r :: rest) cur fam =
            cur :: blocksLoop rest [r] (some r.noncodingRNA_fam) := by
          simp [blocksLoop, h, hc]
        rw [hiff, heq]
        rw [heq] at hch
        refine List.chain'_cons.mpr ⟨?_, hch⟩
        rw [hhead]
        cases cur with
        | nil => exact absurd rfl hcur
        | cons c cs =>
          simp only [List.headD_cons]
          intro hcontra
          have hc2 := hinv c (List.mem_cons_self _ _)
          rw [hcontra] at hc2
          exact h hc2
    · have hinv2 : ∀ x ∈ cur ++ [r], some x.noncodingRNA_fam = fam := by
        intro x hx
        rcases List.mem_append.mp hx with hx | hx
        · exact hinv x hx
        · simp only [List.mem_singleton] at hx
          subst hx
          exact not_not.mp h
      have hch := ih (cur ++ [r]) fam hinv2
      simpa only [blocksLoop, if_neg h] using hch

/-! ### `process_block` case analysis and run-level lemmas -/

theorem process_block_ok (sh : Nat → List Row → List Row)
    (sa : Nat → Nat → List Row → List Row) (block ps : List Row) (cl : List String)
    {pos negs : List Row}
    (h : process_block sh sa block ps cl = Except.ok (pos, negs)) :
    pos = block ∧ negs = negatives_df sh sa ps cl block ∧
      block.length ≤ (negative_pool sh ps cl block).length := by
  by_cases hc : block.length > (negative_pool sh ps cl block).length
  · simp [process_block, hc] at h
  · simp [process_block, hc] at h
    exact ⟨h.1.symm, h.2.symm, le_of_not_lt hc⟩

theorem process_block_error (sh : Nat → List Row → List Row)
    (sa : Nat → Nat → List Row → List Row) (block ps : List Row) (cl : List String)
    (hc : block.length > (negative_pool sh ps cl block).length) :
    process_block sh sa block ps cl = Except.error (errMsg block) := by
  simp [process_block, hc]

theorem negative_genes_length (sh : Nat → List Row → List Row)
    {sa : Nat → Nat → List Row → List Row} (hsa : SampleSpec sa)
    (ps : List Row) (cl : List String) (block : List Row)
    (hle : block.length ≤ (negative_pool sh ps cl block).length) :
    (negative_genes sh sa ps cl block).length = block.length :=
  (hsa _ _ _ hle).1

theorem negative_genes_subperm (sh : Nat → List Row → List Row)
    {sa : Nat → Nat → List Row → List Row} (hsa : SampleSpec sa)
    (ps : List Row) (cl : List String) (block : List Row)
    (hle : block.length ≤ (negative_pool sh ps cl block).length) :
    (negative_genes sh sa ps cl block).Subperm (negative_pool sh ps cl block) :=
  (hsa _ _ _ hle).2

theorem getD_zipWith_mkNegative (gs bl : List Row) (i : Nat)
    (h1 : i < gs.length) (h2 : i < bl.length) :
    (List.zipWith mkNegative gs bl).getD i default =
      mkNegative (gs.getD i default) (bl.getD i default) := by
  have hz : i < (List.zipWith mkNegative gs bl).length := by
    rw [List.length_zipWith]
    omega
  rw [List.getD_eq_getElem _ _ hz, List.getD_eq_getElem _ _ h1,
    List.getD_eq_getElem _ _ h2]
  exact List.getElem_zipWith

theorem runUnits_writes_of_no_error (sh : Nat → List Row → List Row)
    (sa : Nat → Nat → List Row → List Row) (ps : List Row) (cl : List String) :
    ∀ units, (runUnits sh sa ps cl units).2 = none →
      (runUnits sh sa ps cl units).1 =
        (units.map (fun u => u ++ negatives_df sh sa ps cl u)).flatten := by
  intro units
  induction units with
  | nil => intro _; simp [runUnits]
  | cons u rest ih =>
    intro h2
    cases hpb : process_block sh sa u ps cl with
    | error e =>
      exfalso
      simp [runUnits, hpb] at h2
    | ok pr =>
      obtain ⟨pos, negs⟩ := pr
      obtain ⟨hpos, hnegs, -⟩ := process_block_ok sh sa u ps cl hpb
      subst hpos
      subst hnegs
      simp only [runUnits, hpb] at h2 ⊢
      rw [ih h2]
      simp

theorem process_block_congr (sh1 sh2 : Nat → List Row → List Row)
    (sa1 sa2 : Nat → Nat → List Row → List Row) (ps : List Row) (cl : List String)
    (block : List Row)
    (hsh : ∀ l, sh1 (blockSeed block) l = sh2 (blockSeed block) l)
    (hsa : ∀ n l, sa1 (blockSeed block) n l = sa2 (blockSeed block) n l) :
    process_block sh1 sa1 block ps cl = process_block sh2 sa2 block ps cl := by
  have hpool : negative_pool sh1 ps cl block = negative_pool sh2 ps cl block := by
    simp [negative_pool, hsh]
  have hgenes : negative_genes sh1 sa1 ps cl block = negative_genes sh2 sa2 ps cl block := by
    simp [negative_genes, hpool, hsa]
  simp [process_block, negatives_df, hpool, hgenes]

theorem runUnits_congr (sh1 sh2 : Nat → List Row → List Row)
    (sa1 sa2 : Nat → Nat → List Row → List Row) (ps : List Row) (cl : List String) :
    ∀ units, (∀ u ∈ units, (∀ l, sh1 (blockSeed u) l = sh2 (blockSeed u) l) ∧
        (∀ n l, sa1 (blockSeed u) n l = sa2 (blockSeed u) n l)) →
      runUnits sh1 sa1 ps cl units = runUnits sh2 sa2 ps cl units := by
  intro units
  induction units with
  | nil => intro _; rfl
  | cons u rest ih =>
    intro h
    have hu := h u (List.mem_cons_self _ _)
    have hpb := process_block_congr sh1 sh2 sa1 sa2 ps cl u hu.1 hu.2
    have hrest := ih (fun x hx => h x (List.mem_cons_of_mem _ hx))
    simp only [runUnits, hpb, hrest]

/-! ### SHA-256 test vectors (FIPS 180-4) -/

theorem sha256_test_vector_abc :
    sha256hex (strBytes "abc") =
      "ba7816bf8f01cfea414140de5dae2223b00361a396177a9cb410ff61f20015ad" := by
  decide

theorem sha256_test_vector_empty :
    sha256hex (strBytes "") =
      "e3b0c44298fc1c149afbf4c8996fb92427ae41e4649b934ca495991b7852b855" := by
  decide

/-! ### The claims -/

/-- C1: for every family block processed by `process_block`, the cluster
identifiers of the generated negatives are disjoint from the cluster
identifiers of the block's positives: every negative is sampled from a pool
restricted to rows whose cluster identifier is outside the block's cluster
set. -/
theorem claim1_cluster_disjointness (sh : Nat → List Row → List Row)
    (sa : Nat → Nat → List Row → List Row) (hsh : ShuffleSpec sh)
    (hsa : SampleSpec sa) (block ps : List Row) (cl : List String)
    (pos negs : List Row)
    (hok : process_block sh sa block ps cl = Except.ok (pos, negs)) :
    ∀ n ∈ negs, ∀ p ∈ block, n.gene_cluster_ID ≠ p.gene_cluster_ID := by
  obtain ⟨hpos, hnegs, hle⟩ := process_block_ok sh sa block ps cl hok
  subst hnegs
  intro n hn p hp
  rw [negatives_df] at hn
  rcases mem_of_mem_zipWith _ _ n hn with ⟨g, hg, b, hb, hngb⟩
  subst hngb
  have hgpool : g ∈ negative_pool sh ps cl block :=
    (negative_genes_subperm sh hsa ps cl block hle).subset hg
  have hnotin := cluster_not_in_block_of_mem_pool hsh ps cl block hgpool
  intro heq
  simp only [mkNegative] at heq
  exact hnotin (heq ▸ cluster_in_block_of_mem_block block hp)

/-- Witness for C1 at a concrete block: the negative drawn for the
one-row `famB` block avoids its cluster. -/
theorem claim1_witness :
    (mkNegative exR1 exR3).gene_cluster_ID ≠ exR3.gene_cluster_ID :=
  claim1_cluster_disjointness idShuffle takeSample idShuffle_spec takeSample_spec
    [exR3] exRows exClusters [exR3] [mkNegative exR1 exR3] rfl
    (mkNegative exR1 exR3) (by decide) exR3 (by decide)

/-- C2: within the negatives generated for one block no two share a
`gene_cluster_ID`: the shuffled pool is reduced to one row per cluster and
sampling is without replacement. -/
theorem claim2_internal_uniqueness (sh : Nat → List Row → List Row)
    (sa : Nat → Nat → List Row → List Row) (hsa : SampleSpec sa)
    (block ps : List Row) (cl : List String) (pos negs : List Row)
    (hok : process_block sh sa block ps cl = Except.ok (pos, negs)) :
    (negs.map (fun r => r.gene_cluster_ID)).Nodup := by
  obtain ⟨hpos, hnegs, hle⟩ := process_block_ok sh sa block ps cl hok
  subst hnegs
  rw [negatives_df, map_cluster_zipWith_mkNegative _ _
    (negative_genes_length sh hsa ps cl block hle)]
  refine nodup_map_of_subperm _ (negative_genes_subperm sh hsa ps cl block hle) ?_
  show ((negative_pool sh ps cl block).map (fun r => r.gene_cluster_ID)).Nodup
  simp only [negative_pool, drop_duplicates_by]
  exact nodup_keys_dedupByAux _ _ _

/-- Witness for C2 at a concrete block. -/
theorem claim2_witness :
    ([mkNegative exR1 exR3].map (fun r => r.gene_cluster_ID)).Nodup :=
  claim2_internal_uniqueness idShuffle takeSample takeSample_spec
    [exR3] exRows exClusters [exR3] [mkNegative exR1 exR3] rfl

/-- C3: `process_block` raises the insufficient-pool `ValueError` — whose
message names the block's family and first RNA sequence — exactly when the
block size exceeds the deduplicated pool size; otherwise it produces as many
negatives as the block has positives; and a raised error stops the run with
nothing further written for that block. -/
theorem claim3_insufficient_pool (sh : Nat → List Row → List Row)
    (sa : Nat → Nat → List Row → List Row) (hsa : SampleSpec sa)
    (block ps : List Row) (cl : List String) :
    (process_block sh sa block ps cl = Except.error (errMsg block) ↔
       block.length > (negative_pool sh ps cl block).length) ∧
    (∀ e, process_block sh sa block ps cl = Except.error e → e = errMsg block) ∧
    (∀ pos negs, process_block sh sa block ps cl = Except.ok (pos, negs) →
       negs.length = block.length) ∧
    (∀ e rest, process_block sh sa block ps cl = Except.error e →
       runUnits sh sa ps cl (block :: rest) = ([], some e)) := by
  refine ⟨⟨?_, ?_⟩, ?_, ?_, ?_⟩
  · intro he
    by_contra hc
    simp [process_block, hc] at he
  · intro hgt
    exact process_block_error sh sa block ps cl hgt
  · intro e he
    by_cases hc : block.length > (negative_pool sh ps cl block).length
    · rw [process_block_error sh sa block ps cl hc] at he
      exact (Except.error.inj he).symm
    · simp [process_block, hc] at he
  · intro pos negs hok
    obtain ⟨-, hnegs, hle⟩ := process_block_ok sh sa block ps cl hok
    subst hnegs
    rw [negatives_df, List.length_zipWith,
      negative_genes_length sh hsa ps cl block hle]
    omega
  · intro e rest he
    simp [runUnits, he]

/-- Witness for C3: a block holding every cluster of the table leaves an
empty candidate pool, so the run errors and writes nothing for the block. -/
theorem claim3_witness :
    process_block idShuffle takeSample exRows exRows exClusters =
      Except.error (errMsg exRows) ∧
    runUnits idShuffle takeSample exRows exClusters [exRows] =
      ([], some (errMsg exRows)) := by
  have h := claim3_insufficient_pool idShuffle takeSample takeSample_spec
    exRows exRows exClusters
  have herr := h.1.mpr (by decide)
  exact ⟨herr, h.2.2.2 (errMsg exRows) [] herr⟩

/-- C4: the pipeline is deterministic — its result depends on the sampling
oracles only at the per-block seeds derived from each block's first RNA
name, so any two oracle pairs that agree at those seeds produce identical
output, and in particular two runs with the same oracles coincide. -/
theorem claim4_determinism (sh1 sh2 : Nat → List Row → List Row)
    (sa1 sa2 : Nat → Nat → List Row → List Row) (rows : List Row)
    (h : ∀ u ∈ allUnits rows, (∀ l, sh1 (blockSeed u) l = sh2 (blockSeed u) l) ∧
        (∀ n l, sa1 (blockSeed u) n l = sa2 (blockSeed u) n l)) :
    runMain sh1 sa1 rows = runMain sh2 sa2 rows := by
  simp only [runMain]
  exact runUnits_congr sh1 sh2 sa1 sa2 rows
    (uniqueList (rows.map (fun r => r.gene_cluster_ID))) (allUnits rows) h

set_option maxRecDepth 4096 in
/-- Witness for C4: a shuffle oracle that differs from the identity one only
at the unused seed 12345 yields the identical run on the concrete table. -/
theorem claim4_witness :
    runMain idShuffle takeSample exRows = runMain shuffleAlt takeSample exRows := by
  have hall : ∀ u ∈ allUnits exRows, blockSeed u ≠ 12345 := by decide
  refine claim4_determinism idShuffle shuffleAlt takeSample takeSample exRows ?_
  intro u hu
  refine ⟨?_, fun n l => rfl⟩
  intro l
  simp [idShuffle, shuffleAlt, hall u hu]

/-- C5: the seed of a block is the SHA-256 digest of its first
`noncodingRNA_name` (UTF-8 encoded), read as a big-endian unsigned integer
and reduced modulo 4294967295; identical first names give identical seeds. -/
theorem claim5_seed_derivation (block : List Row) :
    blockSeed block =
      bytesToNatBE (sha256Bytes (strBytes (miRNA_name block))) % 4294967295 ∧
    ∀ block2, miRNA_name block = miRNA_name block2 →
      blockSeed block = blockSeed block2 := by
  constructor
  · simp only [blockSeed, miRNA_hash_int, miRNA_hash_hex, parseHex_sha256hex]
  · intro b2 h
    simp only [blockSeed, miRNA_hash_int, miRNA_hash_hex, h]

/-- Witness for C5 at a concrete block, with a second block sharing the
first RNA name. -/
theorem claim5_witness :
    blockSeed [exR3] =
      bytesToNatBE (sha256Bytes (strBytes (miRNA_name [exR3]))) % 4294967295 ∧
    blockSeed [exR3] = blockSeed [exR3, exR4] :=
  ⟨(claim5_seed_derivation [exR3]).1,
   (claim5_seed_derivation [exR3]).2 [exR3, exR4] (by decide)⟩

/-- C6: for a successfully processed block, the i-th negative takes its
gene-side fields from the i-th sampled pool row, its RNA-side fields
positionally from the block's i-th positive, and has label 0. -/
theorem claim6_field_assembly (sh : Nat → List Row → List Row)
    (sa : Nat → Nat → List Row → List Row) (hsa : SampleSpec sa)
    (block ps : List Row) (cl : List String) (pos negs : List Row)
    (hok : process_block sh sa block ps cl = Except.ok (pos, negs))
    (i : Nat) (hi : i < block.length) :
    (negs.getD i default).gene = ((negative_genes sh sa ps cl block).getD i default).gene ∧
    (negs.getD i default).feature = ((negative_genes sh sa ps cl block).getD i default).feature ∧
    (negs.getD i default).test = ((negative_genes sh sa ps cl block).getD i default).test ∧
    (negs.getD i default).chr = ((negative_genes sh sa ps cl block).getD i default).chr ∧
    (negs.getD i default).start = ((negative_genes sh sa ps cl block).getD i default).start ∧
    (negs.getD i default).end_ = ((negative_genes sh sa ps cl block).getD i default).end_ ∧
    (negs.getD i default).strand = ((negative_genes sh sa ps cl block).getD i default).strand ∧
    (negs.getD i default).gene_cluster_ID =
      ((negative_genes sh sa ps cl block).getD i default).gene_cluster_ID ∧
    (negs.getD i default).noncodingRNA = (block.getD i default).noncodingRNA ∧
    (negs.getD i default).noncodingRNA_name = (block.getD i default).noncodingRNA_name ∧
    (negs.getD i default).noncodingRNA_fam = (block.getD i default).noncodingRNA_fam ∧
    (negs.getD i default).label = "0" := by
  obtain ⟨hpos, hnegs, hle⟩ := process_block_ok sh sa block ps cl hok
  subst hnegs
  have hgi : i < (negative_genes sh sa ps cl block).length := by
    rw [negative_genes_length sh hsa ps cl block hle]
    exact hi
  rw [negatives_df, getD_zipWith_mkNegative _ _ i hgi hi]
  simp [mkNegative]

/-- Witness for C6 at a concrete block and index 0. -/
theorem claim6_witness :
    ([mkNegative exR1 exR3].getD 0 default).gene =
      ((negative_genes idShuffle takeSample exRows exClusters [exR3]).getD 0 default).gene ∧
    ([mkNegative exR1 exR3].getD 0 default).noncodingRNA =
      (([exR3] : List Row).getD 0 default).noncodingRNA ∧
    ([mkNegative exR1 exR3].getD 0 default).label = "0" := by
  have h := claim6_field_assembly idShuffle takeSample takeSample_spec
    [exR3] exRows exClusters [exR3] [mkNegative exR1 exR3] rfl 0 (by decide)
  exact ⟨h.1, h.2.2.2.2.2.2.2.2.1, h.2.2.2.2.2.2.2.2.2.2.2⟩

/-- C7: a block whose family key is the sentinel "unknown" is split into one
sub-block per distinct RNA sequence — each sub-block holding exactly the
block's rows with that `noncodingRNA` value — and each sub-block is handed
to `process_block` separately; any other block is processed whole. -/
theorem claim7_unknown_subsplit (block : List Row) :
    ((firstRow block).noncodingRNA_fam = "unknown" →
       expandUnits block =
         (uniqueList (block.map (fun r => r.noncodingRNA))).map
           (fun mirna => block.filter (fun r => r.noncodingRNA = mirna)) ∧
       (uniqueList (block.map (fun r => r.noncodingRNA))).Nodup ∧
       (∀ m, m ∈ uniqueList (block.map (fun r => r.noncodingRNA)) ↔
          ∃ r ∈ block, r.noncodingRNA = m) ∧
       (∀ mirna r, r ∈ block.filter (fun r2 => r2.noncodingRNA = mirna) ↔
          r ∈ block ∧ r.noncodingRNA = mirna)) ∧
    ((firstRow block).noncodingRNA_fam ≠ "unknown" → expandUnits block = [block]) := by
  constructor
  · intro hunk
    refine ⟨by simp [expandUnits, hunk], nodup_uniqueList _, ?_, ?_⟩
    · intro m
      rw [mem_uniqueList]
      simp only [List.mem_map]
    · intro mirna r
      simp [List.mem_filter]
  · intro hne
    simp [expandUnits, hne]

/-- Witness for C7: the concrete "unknown" block splits per RNA sequence,
and a named-family block stays whole. -/
theorem claim7_witness :
    expandUnits [exU1, exU2] = [[exU1], [exU2]] ∧
    expandUnits [exR3, exR4] = [[exR3, exR4]] := by
  have h1 := (claim7_unknown_subsplit [exU1, exU2]).1 (by decide)
  have h2 := (claim7_unknown_subsplit [exR3, exR4]).2 (by decide)
  refine ⟨?_, h2⟩
  rw [h1.1]
  decide

/-- C8: the segmenter yields exactly the maximal contiguous runs of rows
with identical `noncodingRNA_fam`: concatenating the blocks reproduces the
input rows, every block is a non-empty run of one family value, and adjacent
blocks carry different family values. -/
theorem claim8_segmenter (rows : List Row) :
    (yield_mirnafam_blocks rows).flatten = rows ∧
    (∀ b ∈ yield_mirnafam_blocks rows, b ≠ [] ∧
       ∀ r ∈ b, r.noncodingRNA_fam = (firstRow b).noncodingRNA_fam) ∧
    List.Chain' (fun b1 b2 =>
        (firstRow b1).noncodingRNA_fam ≠ (firstRow b2).noncodingRNA_fam)
      (yield_mirnafam_blocks rows) := by
  refine ⟨?_, ?_, ?_⟩
  · simpa using blocksLoop_join rows [] none
  · intro b hb
    have hne := blocksLoop_ne_nil rows [] none b hb
    refine ⟨hne, ?_⟩
    intro r hr
    exact blocksLoop_const_fam rows [] none (by simp) b hb r hr
      (firstRow b) (firstRow_mem hne)
  · exact blocksLoop_chain rows [] none (by simp)

/-- Witness for C8 on the concrete table. -/
theorem claim8_witness :
    (yield_mirnafam_blocks exRows).flatten = exRows ∧
    exR1.noncodingRNA_fam = (firstRow [exR1, exR2]).noncodingRNA_fam := by
  have h := claim8_segmenter exRows
  refine ⟨h.1, ?_⟩
  exact (h.2.1 [exR1, exR2] (by decide)).2 exR1 (by decide)

/-- C9: on a successful run the output is the input's header line followed,
unit by unit in processing order, by the unit's positive rows and then its
negative rows, each serialized with exactly the input's columns in the
input's column order. -/
theorem claim9_output_schema (sh : Nat → List Row → List Row)
    (sa : Nat → Nat → List Row → List Row) (header : List String)
    (rows : List Row) (hok : (runMain sh sa rows).2 = none) :
    runOutput sh sa header rows =
      header :: ((allUnits rows).map (fun u =>
        (u ++ negatives_df sh sa rows
          (uniqueList (rows.map (fun r => r.gene_cluster_ID))) u).map
          (csvRow header))).flatten ∧
    ∀ line ∈ runOutput sh sa header rows, line.length = header.length := by
  simp only [runMain] at hok
  have hw := runUnits_writes_of_no_error sh sa rows
    (uniqueList (rows.map (fun r => r.gene_cluster_ID))) (allUnits rows) hok
  constructor
  · simp only [runOutput, runMain] at hw ⊢
    rw [hw, List.map_flatten, List.map_map]
    rfl
  · intro line hl
    simp only [runOutput, List.mem_cons] at hl
    rcases hl with rfl | hl
    · rfl
    · rcases List.mem_map.mp hl with ⟨r, -, rfl⟩
      exact List.length_map header (getCol r)

/-- Witness for C9 on the concrete table and its header. -/
theorem claim9_witness :
    runOutput idShuffle takeSample exHeader exRows =
      exHeader :: ((allUnits exRows).map (fun u =>
        (u ++ negatives_df idShuffle takeSample exRows
          (uniqueList (exRows.map (fun r => r.gene_cluster_ID))) u).map
          (csvRow exHeader))).flatten ∧
    (exHeader : List String).length = exHeader.length := by
  have h := claim9_output_schema idShuffle takeSample exHeader exRows (by decide)
  exact ⟨h.1, h.2 exHeader (by simp [runOutput])⟩

/-- C10: every block the segmenter yields is non-empty, and so is every
sub-block of an "unknown"-family block, so the script's accesses to the
first element of a processed unit are always defined. -/
theorem claim10_nonempty_access (rows : List Row) :
    ∀ b ∈ yield_mirnafam_blocks rows, b ≠ [] ∧ ∀ u ∈ expandUnits b, u ≠ [] := by
  intro b hb
  have hne := blocksLoop_ne_nil rows [] none b hb
  refine ⟨hne, ?_⟩
  intro u hu
  by_cases hunk : (firstRow b).noncodingRNA_fam = "unknown"
  · simp only [expandUnits, if_pos hunk, List.mem_map] at hu
    rcases hu with ⟨m, hm, rfl⟩
    have hm2 := (mem_uniqueList _ _).mp hm
    rcases List.mem_map.mp hm2 with ⟨r, hr, hrm⟩
    exact List.ne_nil_of_mem (List.mem_filter.mpr ⟨hr, by simp [hrm]⟩)
  · simp only [expandUnits, if_neg hunk, List.mem_singleton] at hu
    subst hu
    exact hne

/-- Witness for C10 on the concrete table's "unknown" block. -/
theorem claim10_witness : [exU1, exU2] ≠ ([] : List Row) ∧ [exU1] ≠ ([] : List Row) := by
  have h := claim10_nonempty_access exRows [exU1, exU2] (by decide)
  exact ⟨h.1, h.2 [exU1] (by decide)⟩
